import Mathlib

/-!
Verification of the pulumi/esc-sdk value model, projector, path navigator and
discriminated-union codec.

The Go side (`sdk/go/api_esc_extensions.go`) converts the raw JSON body of a
"read open environment" response into an annotated `EscValue` tree
(`mapValues` / `getValue` / `getTrace` / `getRange` / `getPos`) and projects
that tree into plain values (`mapValuesPrimitive`).  Go's dynamically typed
`any` universe is embedded as the inductive `GoAny`; Go maps
(`map[string]any`, `map[string]EscValue`) are embedded as association lists
whose keys are unique in any value that a real response can produce, and map
indexing is embedded as first-occurrence lookup (`alookup`).  Go numbers
(`float64`) are carried as rationals; no claim depends on rounding.

`mapValues` recurses on the result of one of its own recursive calls
(`val.Value = mapValues(val.Value)`), so its embedding `mapValuesF` takes an
explicit fuel argument and returns `none` when the fuel runs out; the wrapper
`mapValues` supplies a generous structural fuel.  Theorems about it either
evaluate it on concrete input or hypothesise that the call converged
(`= some r`), which is exactly the behaviour of the terminating Go function.

Go slices are mutable and `mapValuesPrimitive` writes projections back into
the slice it walks (`val[i] = mapValuesPrimitive(v)`); the function
`mapValuesPrimitiveAfter` models the content of the input tree after such a
call (explicit-state reading of the in-place updates).
-/

/-- Embeds the generated Go struct `EscPos` (fields `Line`, `Column`, `Byte`,
all `int64`), as used by `getPos` in `sdk/go/api_esc_extensions.go`. -/
structure EscPos where
  line : Int
  column : Int
  byte : Int
deriving DecidableEq, Repr

/-- Embeds the generated Go struct `EscRange`: an optional environment name
plus begin/end positions, as built by `getRange`. -/
structure EscRange where
  environment : Option String
  beginPos : EscPos
  endPos : EscPos
deriving DecidableEq, Repr

/-- The zero value of the Go struct `EscRange` (what `EscTrace.Def` holds when
`getTrace` finds no definition range). -/
def zeroRange : EscRange :=
  { environment := none
    beginPos := { line := 0, column := 0, byte := 0 }
    endPos := { line := 0, column := 0, byte := 0 } }

mutual

/-- Embeds Go's `any` universe as it occurs in the value-model code:
JSON scalars (`nil`, `bool`, `float64`, `string`), raw JSON containers
(`[]any`, `map[string]any`) and the converted containers (`*EscValue`,
`map[string]EscValue`) produced by `mapValues`. -/
inductive GoAny : Type where
  | nil : GoAny
  | bool (b : Bool) : GoAny
  | num (q : Rat) : GoAny
  | str (s : String) : GoAny
  | arr (xs : List GoAny) : GoAny
  | omap (m : List (String × GoAny)) : GoAny
  | escValue (v : EscValue) : GoAny
  | escMap (m : List (String × EscValue)) : GoAny

/-- Embeds the generated Go struct `EscValue`
(`Value any; Secret *bool; Unknown *bool; Trace EscTrace`). -/
inductive EscValue : Type where
  | mk (value : GoAny) (secret : Option Bool) (unknown : Option Bool)
      (trace : EscTrace) : EscValue

/-- Embeds the generated Go struct `EscTrace`
(`Def EscRange; Base *EscValue`); `Def` is a value field whose zero value is
`zeroRange`. -/
inductive EscTrace : Type where
  | mk (defRange : EscRange) (base : Option EscValue) : EscTrace

end

/-- Field accessor for `EscValue.Value`. -/
def EscValue.value : EscValue → GoAny
  | .mk v _ _ _ => v

/-- Field accessor for `EscValue.Secret`. -/
def EscValue.secret : EscValue → Option Bool
  | .mk _ s _ _ => s

/-- Field accessor for `EscValue.Unknown`. -/
def EscValue.unknown : EscValue → Option Bool
  | .mk _ _ u _ => u

/-- Field accessor for `EscValue.Trace`. -/
def EscValue.trace : EscValue → EscTrace
  | .mk _ _ _ t => t

/-- The zero value of the Go struct `EscTrace` (`EscTrace{}`). -/
def emptyTrace : EscTrace := .mk zeroRange none

/-- First-occurrence lookup in an association list; embeds Go map indexing
`data[key]` (Go map keys are unique, so on the image of real maps this is the
map lookup). -/
def alookup {α : Type} : List (String × α) → String → Option α
  | [], _ => none
  | (k, v) :: rest, key => if k == key then some v else alookup rest key

/-- Embeds `getMapSafe` from `sdk/go/api_esc_extensions.go`: the comma-ok
type assertion of an `any` to `map[string]any`, with `nil` for failure. -/
def getMapSafe : GoAny → Option (List (String × GoAny))
  | .omap m => some m
  | _ => none

/-- Embeds `getBoolPtr`: returns the boolean stored under `key` when present
and actually a `bool`, and `nil` otherwise. -/
def getBoolPtr (data : List (String × GoAny)) (key : String) : Option Bool :=
  match alookup data key with
  | some (.bool b) => some b
  | _ => none

/-- Go's `int64(f)` conversion of a `float64`: truncation toward zero, on the
rational carrier. -/
def truncInt (q : Rat) : Int := q.num.tdiv q.den

/-- Embeds `getPos`: reads `line`/`column`/`byte` as `float64` with comma-ok
assertions and produces a position when at least one is present. -/
def getPos (data : Option (List (String × GoAny))) : Option EscPos :=
  let d := data.getD []
  let lineV := match alookup d "line" with | some (.num q) => some q | _ => none
  let colV := match alookup d "column" with | some (.num q) => some q | _ => none
  let byteV := match alookup d "byte" with | some (.num q) => some q | _ => none
  if lineV.isSome || colV.isSome || byteV.isSome then
    some { line := truncInt (lineV.getD 0), column := truncInt (colV.getD 0),
           byte := truncInt (byteV.getD 0) }
  else
    none

/-- Embeds `getRange`: builds an `EscRange` when both `begin` and `end`
positions are present, attaching the `environment` string when it is one. -/
def getRange (data : Option (List (String × GoAny))) : Option EscRange :=
  let d := data.getD []
  match getPos (getMapSafe (alookup d "begin" |>.getD .nil)),
        getPos (getMapSafe (alookup d "end" |>.getD .nil)) with
  | some b, some e =>
      some { environment := match alookup d "environment" with
                            | some (.str s) => some s
                            | _ => none
             beginPos := b, endPos := e }
  | _, _ => none

/-- Go runtime faults that the conversion code can raise. -/
inductive GoPanic : Type where
  | interfaceConversion : GoPanic
  | nilPointerDereference : GoPanic
deriving DecidableEq, Repr

/-- A fueled, fallible computation: `none` means the fuel ran out (never the
case for the fuel the wrappers supply), `some (.error p)` a Go panic, and
`some (.ok a)` a normal return. -/
abbrev GoRes (α : Type) : Type := Option (Except GoPanic α)

/-- Sequencing for `GoRes`: propagate fuel exhaustion and panics. -/
def rbind {α β : Type} : GoRes α → (α → GoRes β) → GoRes β
  | none, _ => none
  | some (.error p), _ => some (.error p)
  | some (.ok a), f => f a

/-- The unchecked Go type assertion `x.(map[string]any)` (as applied to the
`trace` field inside `getValue`): panics when the value is not a map. -/
def assertMap (v : GoAny) : Except GoPanic (List (String × GoAny)) :=
  match v with
  | .omap m => .ok m
  | _ => .error .interfaceConversion

/-- How the Go loop in `mapValues`'s `map[string]any` branch stores one
converted member: `nil` results are skipped (`continue`), converted nodes
(`*EscValue`) are stored as they are, and any other value is wrapped in a bare
`EscValue` with only the `Value` field set. -/
def consMember (k : String) (value : GoAny) (out : List (String × EscValue)) :
    List (String × EscValue) :=
  match value with
  | .nil => out
  | .escValue ev => (k, ev) :: out
  | other => (k, .mk other none none emptyTrace) :: out

mutual

/-- Fueled embedding of `mapValues` from `sdk/go/api_esc_extensions.go`.
The Go function first tries `getValue(getMapSafe(value))`; on a node it
re-applies itself to the already-converted payload (`val.Value =
mapValues(val.Value)`) — recursion on the result of a recursive call is why
an explicit fuel is needed — otherwise it converts `map[string]any` members,
converts `[]any` elements in place, or returns the value unchanged.  Every
recursive call decrements the fuel; `none` is returned only on exhaustion. -/
def mapValuesF : Nat → GoAny → GoRes GoAny
  | 0, _ => none
  | n + 1, v =>
    rbind (getValueF n (getMapSafe v)) fun val? =>
    match val? with
    | some val =>
        rbind (mapValuesF n val.value) fun inner2 =>
        some (.ok (.escValue (.mk inner2 val.secret val.unknown val.trace)))
    | none =>
        match v with
        | .omap m => rbind (mapMembersF n m) fun out => some (.ok (.escMap out))
        | .arr xs => rbind (mapElemsF n xs) fun out => some (.ok (.arr out))
        | other => some (.ok other)

/-- Fueled embedding of `getValue`: a map with both `value` and `trace` keys
is a node; its payload is converted with `mapValues`, `secret`/`unknown` are
read with `getBoolPtr`, and the `trace` field is subjected to the unchecked
assertion `data["trace"].(map[string]any)` (which panics on a non-map). -/
def getValueF : Nat → Option (List (String × GoAny)) → GoRes (Option EscValue)
  | 0, _ => none
  | _ + 1, none => some (.ok none)
  | n + 1, some data =>
    if (alookup data "value").isSome && (alookup data "trace").isSome then
      rbind (mapValuesF n ((alookup data "value").getD .nil)) fun inner =>
      match assertMap ((alookup data "trace").getD .nil) with
      | .error p => some (.error p)
      | .ok traceMap =>
        rbind (getTraceF n traceMap) fun tr =>
        some (.ok (some (.mk inner (getBoolPtr data "secret")
          (getBoolPtr data "unknown") tr)))
    else some (.ok none)

/-- Fueled embedding of `getTrace`: reads the definition range from `def` and
the base value from `base` (via `getValue`), returning the zero trace when
both are absent. -/
def getTraceF : Nat → List (String × GoAny) → GoRes EscTrace
  | 0, _ => none
  | n + 1, data =>
    let defR := getRange (getMapSafe ((alookup data "def").getD .nil))
    rbind (getValueF n (getMapSafe ((alookup data "base").getD .nil))) fun base =>
    if defR.isSome || base.isSome then
      some (.ok (.mk (defR.getD zeroRange) base))
    else
      some (.ok emptyTrace)

/-- The member loop of `mapValues`'s `map[string]any` branch: convert each
member, skip `nil` results, store nodes directly and wrap other values
(`consMember`). -/
def mapMembersF : Nat → List (String × GoAny) → GoRes (List (String × EscValue))
  | 0, _ => none
  | _ + 1, [] => some (.ok [])
  | n + 1, (k, v) :: rest =>
    rbind (mapValuesF n v) fun value =>
    rbind (mapMembersF n rest) fun out =>
    some (.ok (consMember k value out))

/-- The element loop of `mapValues`'s `[]any` branch (`sliceData[i] =
mapValues(v)`). -/
def mapElemsF : Nat → List GoAny → GoRes (List GoAny)
  | 0, _ => none
  | _ + 1, [] => some (.ok [])
  | n + 1, v :: rest =>
    rbind (mapValuesF n v) fun value =>
    rbind (mapElemsF n rest) fun out =>
    some (.ok (value :: out))

end

mutual

/-- Computable size of a `GoAny` tree, used only to pick a sufficient fuel
for `mapValuesF`. -/
def goSize : GoAny → Nat
  | .arr xs => 1 + goSizeList xs
  | .omap m => 1 + goSizeMembers m
  | .escValue v => 1 + escSize v
  | .escMap m => 1 + goSizeEscMembers m
  | _ => 1

/-- Size of an `EscValue` node. -/
def escSize : EscValue → Nat
  | .mk value _ _ t => 1 + goSize value + traceSize t

/-- Size of a trace (its base chain). -/
def traceSize : EscTrace → Nat
  | .mk _ none => 1
  | .mk _ (some b) => 1 + escSize b

/-- Size of a list of values. -/
def goSizeList : List GoAny → Nat
  | [] => 0
  | x :: rest => 1 + goSize x + goSizeList rest

/-- Size of a `map[string]any` association list. -/
def goSizeMembers : List (String × GoAny) → Nat
  | [] => 0
  | (_, v) :: rest => 1 + goSize v + goSizeMembers rest

/-- Size of a `map[string]EscValue` association list. -/
def goSizeEscMembers : List (String × EscValue) → Nat
  | [] => 0
  | (_, v) :: rest => 1 + escSize v + goSizeEscMembers rest

end

/-- Fuel that is sufficient for `mapValuesF` on every value a JSON response
can produce (each unit of structure consumes at most three units of fuel). -/
def mvFuel (v : GoAny) : Nat := 3 * goSize v + 3

/-- The embedding of `mapValues` at the standard fuel. -/
def mapValues (v : GoAny) : GoRes GoAny := mapValuesF (mvFuel v) v

mutual

/-- Embeds `mapValuesPrimitive` from `sdk/go/api_esc_extensions.go`: strips
the `EscValue` annotations from a converted tree.  A node projects to the
projection of its payload, a `map[string]EscValue` to a `map[string]any` of
projected member payloads, a `[]any` to its elementwise projection (written
back in place in Go), and anything else is returned unchanged. -/
def mapValuesPrimitive : GoAny → GoAny
  | .escValue (.mk value _ _ _) => mapValuesPrimitive value
  | .escMap m => .omap (mvpMembers m)
  | .arr xs => .arr (mvpElems xs)
  | v => v

/-- The member loop of `mapValuesPrimitive`'s `map[string]EscValue` branch
(`output[k] = mapValuesPrimitive(v.Value)`). -/
def mvpMembers : List (String × EscValue) → List (String × GoAny)
  | [] => []
  | (k, .mk value _ _ _) :: rest => (k, mapValuesPrimitive value) :: mvpMembers rest

/-- The element loop of `mapValuesPrimitive`'s `[]any` branch
(`val[i] = mapValuesPrimitive(v)`). -/
def mvpElems : List GoAny → List GoAny
  | [] => []
  | v :: rest => mapValuesPrimitive v :: mvpElems rest

end

mutual

/-- The content of the input tree after a call of `mapValuesPrimitive`,
reading the Go slice mutations explicitly: `val[i] = mapValuesPrimitive(v)`
overwrites each sequence slot with the projection of its former content, so
the slice a sequence node holds afterwards is exactly the projected element
list, while scalars, `map[string]any` values and the `EscValue` structs
themselves are not written to. -/
def mapValuesPrimitiveAfter : GoAny → GoAny
  | .escValue (.mk value s u t) => .escValue (.mk (mapValuesPrimitiveAfter value) s u t)
  | .escMap m => .escMap (mvpAfterMembers m)
  | .arr xs => .arr (mvpElems xs)
  | v => v

/-- After-state of the members of a `map[string]EscValue`: the recursive
projection of each member's payload may have mutated slices inside it. -/
def mvpAfterMembers : List (String × EscValue) → List (String × EscValue)
  | [] => []
  | (k, .mk value s u t) :: rest =>
      (k, .mk (mapValuesPrimitiveAfter value) s u t) :: mvpAfterMembers rest

end

/-- Shapes of a value tree: scalar, sequence or mapping, the classification
the specification uses for projection. -/
inductive Shape : Type where
  | scalar : Shape
  | seq (ss : List Shape) : Shape
  | smap (ms : List (String × Shape)) : Shape

mutual

/-- Well-formedness of a converted node payload, following the data-model
invariant: a payload is a scalar, a sequence whose elements are all nodes, or
a `map[string]EscValue` of well-formed nodes. -/
def wfVal : GoAny → Bool
  | .nil => true
  | .bool _ => true
  | .num _ => true
  | .str _ => true
  | .arr xs => wfChildren xs
  | .escMap m => wfMembers m
  | .omap _ => false
  | .escValue _ => false

/-- All elements of a sequence are well-formed nodes. -/
def wfChildren : List GoAny → Bool
  | [] => true
  | .escValue (.mk value _ _ _) :: rest => wfVal value && wfChildren rest
  | _ :: _ => false

/-- All members of a mapping are well-formed nodes. -/
def wfMembers : List (String × EscValue) → Bool
  | [] => true
  | (_, .mk value _ _ _) :: rest => wfVal value && wfMembers rest

end

/-- Well-formedness of a converted `EscValue` node. -/
def wfNode (v : EscValue) : Bool := wfVal v.value

mutual

/-- The shape of a well-formed node payload, ignoring annotations.
(On payloads that are not well formed the classification defaults to
`scalar`; the theorems only use it under `wfVal`.) -/
def shapeVal : GoAny → Shape
  | .arr xs => .seq (shapeChildren xs)
  | .escMap m => .smap (shapeMembers m)
  | _ => .scalar

/-- Shapes of the elements of a sequence of nodes. -/
def shapeChildren : List GoAny → List Shape
  | [] => []
  | .escValue (.mk value _ _ _) :: rest => shapeVal value :: shapeChildren rest
  | _ :: rest => .scalar :: shapeChildren rest

/-- Shapes of the members of a mapping of nodes. -/
def shapeMembers : List (String × EscValue) → List (String × Shape)
  | [] => []
  | (k, .mk value _ _ _) :: rest => (k, shapeVal value) :: shapeMembers rest

end

/-- The shape of an `EscValue` node. -/
def shapeNode (v : EscValue) : Shape := shapeVal v.value

mutual

/-- A value is plain when it is built from scalars, sequences and
`map[string]any` mappings only — no `EscValue` annotation (and hence no
secret/unknown flag and no trace) occurs anywhere in it. -/
def isPlain : GoAny → Bool
  | .nil => true
  | .bool _ => true
  | .num _ => true
  | .str _ => true
  | .arr xs => isPlainList xs
  | .omap m => isPlainMembers m
  | .escValue _ => false
  | .escMap _ => false

/-- All elements of a list are plain. -/
def isPlainList : List GoAny → Bool
  | [] => true
  | x :: rest => isPlain x && isPlainList rest

/-- All member values of a mapping are plain. -/
def isPlainMembers : List (String × GoAny) → Bool
  | [] => true
  | (_, v) :: rest => isPlain v && isPlainMembers rest

end

mutual

/-- The shape of a plain value. -/
def shapePlain : GoAny → Shape
  | .arr xs => .seq (shapePlainList xs)
  | .omap m => .smap (shapePlainMembers m)
  | _ => .scalar

/-- Shapes of the elements of a plain list. -/
def shapePlainList : List GoAny → List Shape
  | [] => []
  | x :: rest => shapePlain x :: shapePlainList rest

/-- Shapes of the members of a plain mapping. -/
def shapePlainMembers : List (String × GoAny) → List (String × Shape)
  | [] => []
  | (k, v) :: rest => (k, shapePlain v) :: shapePlainMembers rest

end

/-- Scalar payloads of the Go value model. -/
def isScalarVal : GoAny → Bool
  | .nil => true
  | .bool _ => true
  | .num _ => true
  | .str _ => true
  | _ => false

/-- The part of the generated `EscEnvironment` model that
`ReadOpenEnvironment` touches: the optional `Properties` map
(`*map[string]EscValue`); `nil` pointer is `none`. -/
structure EscEnvObj : Type where
  properties : Option (List (String × EscValue))

/-- The property-conversion loop of `ReadOpenEnvironment`
(`v.Value = mapValues(v.Value); propertyMap[k] = v`). -/
def convertProps : List (String × EscValue) → GoRes (List (String × EscValue))
  | [] => some (.ok [])
  | (k, .mk value s u t) :: rest =>
    rbind (mapValues value) fun nv =>
    rbind (convertProps rest) fun out =>
    some (.ok ((k, EscValue.mk nv s u t) :: out))

/-- Embeds the post-transport logic of `ReadOpenEnvironment`
(`sdk/go/api_esc_extensions.go`): after a successful request, a `nil`
environment or a `nil` `Properties` map short-circuits to `(nil, nil, nil)`;
otherwise every property payload is converted with `mapValues` and the plain
value map is produced with `mapValuesPrimitive(&v)`.  The `Except` layer is
the returned `error`: `Except.ok` is a `nil` error. -/
def readOpenEnvironmentPure (env? : Option EscEnvObj) :
    GoRes (Option EscEnvObj × Option (List (String × GoAny))) :=
  match env? with
  | none => some (.ok (none, none))
  | some env =>
    match env.properties with
    | none => some (.ok (none, none))
    | some props =>
      rbind (convertProps props) fun pm =>
      some (.ok (some { properties := some pm },
        some (pm.map (fun kv => (kv.fst, mapValuesPrimitive (.escValue kv.snd))))))

/-- A JSON document, used for the C# `JsonElement` values the path navigator
walks and for the raw JSON documents the change-gate codec reads and writes. -/
inductive Json : Type where
  | null : Json
  | bool (b : Bool) : Json
  | num (q : Rat) : Json
  | str (s : String) : Json
  | arr (xs : List Json) : Json
  | obj (members : List (String × Json)) : Json

/-- Last-occurrence lookup in an object's member list: `encoding/json` (and
`System.Text.Json` in its default configuration) let a later duplicate key win
when binding an object to a struct/class field. -/
def lookupLastJ : List (String × Json) → String → Option Json
  | [], _ => none
  | (k, v) :: rest, key =>
    match lookupLastJ rest key with
    | some r => some r
    | none => if k == key then some v else none

/-- Splits a character list at every `'.'`; the result always has one more
segment than there are dots (so empty segments are kept, as `String.Split`
and `strings.Split` do for adjacent/leading/trailing separators). -/
def splitDotChars : List Char → List (List Char)
  | [] => [[]]
  | c :: rest =>
    match splitDotChars rest with
    | s :: ss => if c = '.' then [] :: s :: ss else (c :: s) :: ss
    | [] => [[c]]

/-- Embeds `propertyPath.Split('.')` from the C# client: the dot-separated
segments of a property path. -/
def splitSegs (s : String) : List String :=
  (splitDotChars s.data).map (fun cs => String.mk cs)

/-- Modelled from the spec: the C# generated `Value` class (one ValueNode of
the wire format, fields `value`, optional `secret`, optional `unknown`,
`trace`), of which the navigator in `EscClient.cs` reads only `VarValue`
(the raw JSON payload under `value`). -/
structure CsValue : Type where
  varValue : Json
  secret : Option Bool
  unknown : Option Bool
  trace : Json

/-- Reads an optional boolean member of a node document. -/
def jsonBoolField (ms : List (String × Json)) (key : String) : Option Bool :=
  match lookupLastJ ms key with
  | some (.bool b) => some b
  | _ => none

/-- The failure modes of `ResolvePropertyPath` in
`sdk/csharp/Pulumi.Esc.Sdk/EscClient.cs`; each constructor corresponds to one
`EscApiException` (or, for `jsonTypeError`, to the `JsonException` that
`JsonSerializer.Deserialize<Value>` throws on a non-object, non-null
element). -/
inductive CsPathError : Type where
  | noProperties : CsPathError
  | notFound (segment : String) : CsPathError
  | notAnObject : CsPathError
  | deserializeFailed : CsPathError
  | jsonTypeError : CsPathError
deriving DecidableEq, Repr

/-- Modelled from the spec: `JsonSerializer.Deserialize<Value>` on one child
element — a JSON object binds its `value`/`secret`/`unknown`/`trace` members
to a fresh `Value` (missing members stay at their defaults), JSON `null`
deserializes to a null reference (`.ok none`), and any other element cannot
be bound to the class and throws. -/
def deserializeValue : Json → Except CsPathError (Option CsValue)
  | .obj ms =>
      .ok (some { varValue := (lookupLastJ ms "value").getD .null
                  secret := jsonBoolField ms "secret"
                  unknown := jsonBoolField ms "unknown"
                  trace := (lookupLastJ ms "trace").getD .null })
  | .null => .ok none
  | _ => .error .jsonTypeError

/-- The navigation loop of `ResolvePropertyPath`: for each remaining segment,
the current node's `VarValue` must be a JSON object, the segment must be one
of its properties, and the child element is deserialized into the next
`Value`. -/
def resolveLoop : CsValue → List String → Except CsPathError CsValue
  | cur, [] => .ok cur
  | cur, s :: rest =>
    match cur.varValue with
    | .obj fields =>
      match lookupLastJ fields s with
      | none => .error (.notFound s)
      | some child =>
        match deserializeValue child with
        | .error e => .error e
        | .ok none => .error .deserializeFailed
        | .ok (some v) => resolveLoop v rest
    | _ => .error .notAnObject

/-- Embeds `ResolvePropertyPath` from `sdk/csharp/Pulumi.Esc.Sdk/EscClient.cs`:
splits the path on `'.'`, looks the first segment up in the environment's
property dictionary, then descends segment by segment with `resolveLoop`. -/
def resolvePropertyPath (props : Option (List (String × CsValue)))
    (propertyPath : String) : Except CsPathError CsValue :=
  match props with
  | none => .error .noProperties
  | some ps =>
    match splitSegs propertyPath with
    | [] => .error .noProperties
    | s0 :: rest =>
      match alookup ps s0 with
      | none => .error (.notFound s0)
      | some cur => resolveLoop cur rest

/-- The three `ApprovalRuleEligibilityType` discriminator constants declared
in the SDK. -/
def approvalRuleEligibilityTypeHasPermissionOnTarget : String :=
  "has_permission_on_target"

/-- Discriminator for user-based eligibility. -/
def approvalRuleEligibilityTypeHasUserLogin : String := "has_user_login"

/-- Discriminator for team-based eligibility. -/
def approvalRuleEligibilityTypeHasTeamMembership : String := "has_team_membership"

/-- Whether a tag is one of the three known eligibility discriminators. -/
def knownEligibilityType (tag : String) : Bool :=
  tag == approvalRuleEligibilityTypeHasPermissionOnTarget
    || tag == approvalRuleEligibilityTypeHasUserLogin
    || tag == approvalRuleEligibilityTypeHasTeamMembership

/-- The closed tagged union of eligibility rules, as the builder
(`ApprovalRuleEligibilityBuilder` and the `Create...EligibilityRule` helpers)
constructs them: one concrete payload per variant, with the discriminator
implied by the variant. -/
inductive EligibilityRule : Type where
  | permission (permission : String) : EligibilityRule
  | user (userLogin : String) : EligibilityRule
  | team (teamName : String) : EligibilityRule
deriving DecidableEq, Repr

/-- The concrete approver types recovered by `parseEnhancedGateFromJSON`
(`EnvironmentChangeGatePermissionApprover` /
`EnvironmentChangeGateUserApprover` / `EnvironmentChangeGateTeamApprover`),
each carrying the `eligibilityType` it was decoded with plus its own field. -/
inductive GateApprover : Type where
  | permission (eligibilityType : String) (permission : String) : GateApprover
  | user (eligibilityType : String) (userLogin : String) : GateApprover
  | team (eligibilityType : String) (teamName : String) : GateApprover
deriving DecidableEq, Repr

/-- Modelled from the spec: `json.Marshal` of the concrete
`ApprovalRuleEligibilityInputPermission` / `...InputUser` / `...InputTeam`
values that the builder produces (the generated struct declarations are not
part of the sources here).  Per the codec contract, each rule marshals to an
object holding `eligibilityType` set to the variant's tag plus that variant's
own field, and never a field of another variant. -/
def encodeEligibilityRule : EligibilityRule → Json
  | .permission p =>
      .obj [("eligibilityType", .str approvalRuleEligibilityTypeHasPermissionOnTarget),
            ("permission", .str p)]
  | .user u =>
      .obj [("eligibilityType", .str approvalRuleEligibilityTypeHasUserLogin),
            ("userLogin", .str u)]
  | .team t =>
      .obj [("eligibilityType", .str approvalRuleEligibilityTypeHasTeamMembership),
            ("teamName", .str t)]

/-- Failure of `json.Unmarshal` when binding a document to a struct whose
fields are strings. -/
inductive UnmarshalErr : Type where
  | typeMismatch : UnmarshalErr
deriving DecidableEq, Repr

/-- `json.Unmarshal` of a document into a struct string field tagged `key`:
an object binds the member when present (`null` leaves the zero value, a
non-string member is a type error), a `null` document leaves the whole struct
at its zero value, and any other document is a type error. -/
def unmarshalStringField (doc : Json) (key : String) : Except UnmarshalErr String :=
  match doc with
  | .obj ms =>
    match lookupLastJ ms key with
    | none => .ok ""
    | some .null => .ok ""
    | some (.str s) => .ok s
    | some _ => .error .typeMismatch
  | .null => .ok ""
  | _ => .error .typeMismatch

/-- The errors of `parseEnhancedGateFromJSON`'s approver loop, each carrying
the element index the Go error message reports (and, for an unknown
discriminator, the tag value that was seen). -/
inductive GateParseErr : Type where
  | tagUnmarshal (index : Nat) : GateParseErr
  | variantUnmarshal (index : Nat) : GateParseErr
  | unknownEligibilityType (tag : String) (index : Nat) : GateParseErr
deriving DecidableEq, Repr

/-- One iteration of the approver loop in `parseEnhancedGateFromJSON`
(`src/unnamed/part_006`): first unmarshal `{eligibilityType string}` to read
the discriminator, then switch on it, unmarshalling the matching concrete
approver struct; any other tag (including the absent-tag zero value `""`)
produces the `unknown eligibilityType '%s' for approver %d` error. -/
def parseApproverElem (i : Nat) (doc : Json) : Except GateParseErr GateApprover :=
  match unmarshalStringField doc "eligibilityType" with
  | .error _ => .error (.tagUnmarshal i)
  | .ok tag =>
    if tag == approvalRuleEligibilityTypeHasPermissionOnTarget then
      match unmarshalStringField doc "eligibilityType",
            unmarshalStringField doc "permission" with
      | .ok t, .ok p => .ok (.permission t p)
      | _, _ => .error (.variantUnmarshal i)
    else if tag == approvalRuleEligibilityTypeHasUserLogin then
      match unmarshalStringField doc "eligibilityType",
            unmarshalStringField doc "userLogin" with
      | .ok t, .ok u => .ok (.user t u)
      | _, _ => .error (.variantUnmarshal i)
    else if tag == approvalRuleEligibilityTypeHasTeamMembership then
      match unmarshalStringField doc "eligibilityType",
            unmarshalStringField doc "teamName" with
      | .ok t, .ok u => .ok (.team t u)
      | _, _ => .error (.variantUnmarshal i)
    else
      .error (.unknownEligibilityType tag i)

/-- The whole approver loop: each element of `rule.eligibleApprovers` is
decoded independently, in order, with its index; the first failure aborts. -/
def parseEligibleApprovers (i : Nat) :
    List Json → Except GateParseErr (List GateApprover)
  | [] => .ok []
  | d :: rest =>
    match parseApproverElem i d with
    | .error e => .error e
    | .ok a =>
      match parseEligibleApprovers (i + 1) rest with
      | .error e => .error e
      | .ok as => .ok (a :: as)

/-- The concrete approver a rule round-trips to: the decoder stores the tag
it dispatched on next to the variant's payload. -/
def approverOfRule : EligibilityRule → GateApprover
  | .permission p => .permission approvalRuleEligibilityTypeHasPermissionOnTarget p
  | .user u => .user approvalRuleEligibilityTypeHasUserLogin u
  | .team t => .team approvalRuleEligibilityTypeHasTeamMembership t

/-- Forgets the stored discriminator, recovering the abstract rule. -/
def ruleOfApprover : GateApprover → EligibilityRule
  | .permission _ p => .permission p
  | .user _ u => .user u
  | .team _ t => .team t

/-- Embeds `getQualifiedEnvName` (`fmt.Sprintf("%s/%s", projectName,
envName)`). -/
def getQualifiedEnvName (projectName envName : String) : String :=
  projectName ++ "/" ++ envName

/-- Embeds the Go struct `ChangeGateConfig` (the `EligibilityInputWrapper`
slice holds the three concrete rule types, embedded as `EligibilityRule`;
`AllowSelfApproval` and `RequireReapprovalOnChange` are `*bool`). -/
structure ChangeGateConfig : Type where
  name : String
  enabled : Bool
  numApprovalsRequired : Int
  eligibleApprovers : List EligibilityRule
  allowSelfApproval : Option Bool
  requireReapprovalOnChange : Option Bool

/-- Embeds the Go struct `ChangeGateUpdateConfig` (same fields as
`ChangeGateConfig`). -/
structure ChangeGateUpdateConfig : Type where
  name : String
  enabled : Bool
  numApprovalsRequired : Int
  eligibleApprovers : List EligibilityRule
  allowSelfApproval : Option Bool
  requireReapprovalOnChange : Option Bool

/-- The anonymous `Rule` struct both gate request bodies share. -/
structure GateRulePayload : Type where
  ruleType : String
  numApprovalsRequired : Int
  allowSelfApproval : Bool
  requireReapprovalOnChange : Bool
  eligibleApprovers : List Json

/-- The anonymous `Target` struct of the creation body: entity type,
qualified name and action types. -/
structure CreateTargetPayload : Type where
  entityType : String
  qualifiedName : String
  actionTypes : List String

/-- The anonymous `Target` struct of the update body: it has an `actionTypes`
field only — no `entityType` and no `qualifiedName` field exists in the
update request. -/
structure UpdateTargetPayload : Type where
  actionTypes : List String

/-- The request body built by `CreateEnvironmentChangeGate`. -/
structure CreateGatePayload : Type where
  name : String
  enabled : Bool
  rule : GateRulePayload
  target : CreateTargetPayload

/-- The request body built by `UpdateEnvironmentChangeGate`. -/
structure UpdateGatePayload : Type where
  name : String
  enabled : Bool
  rule : GateRulePayload
  target : UpdateTargetPayload

/-- Embeds the request construction in `CreateEnvironmentChangeGate`
(`sdk/go/api_esc_extensions.go`): marshals each wrapped approver in order,
sets `Rule.RuleType = "approval_required"`, copies the approval settings
(dereferencing the two `*bool` fields — a `nil` pointer would make the Go
code panic), and sets the target to `entityType: "environment"`,
`qualifiedName: getQualifiedEnvName(projectName, envName)` and
`actionTypes: ["update"]`. -/
def buildCreateGatePayload (projectName envName : String)
    (config : ChangeGateConfig) : Except GoPanic CreateGatePayload :=
  let eligibleApprovers := config.eligibleApprovers.map encodeEligibilityRule
  match config.allowSelfApproval, config.requireReapprovalOnChange with
  | some allow, some reapprove =>
    .ok { name := config.name
          enabled := config.enabled
          rule := { ruleType := "approval_required"
                    numApprovalsRequired := config.numApprovalsRequired
                    allowSelfApproval := allow
                    requireReapprovalOnChange := reapprove
                    eligibleApprovers := eligibleApprovers }
          target := { entityType := "environment"
                      qualifiedName := getQualifiedEnvName projectName envName
                      actionTypes := ["update"] } }
  | _, _ => .error .nilPointerDereference

/-- Embeds the request construction in `UpdateEnvironmentChangeGate`: the same
rule fields as creation, and a target carrying only `actionTypes:
["update"]`. -/
def buildUpdateGatePayload (config : ChangeGateUpdateConfig) :
    Except GoPanic UpdateGatePayload :=
  let eligibleApprovers := config.eligibleApprovers.map encodeEligibilityRule
  match config.allowSelfApproval, config.requireReapprovalOnChange with
  | some allow, some reapprove =>
    .ok { name := config.name
          enabled := config.enabled
          rule := { ruleType := "approval_required"
                    numApprovalsRequired := config.numApprovalsRequired
                    allowSelfApproval := allow
                    requireReapprovalOnChange := reapprove
                    eligibleApprovers := eligibleApprovers }
          target := { actionTypes := ["update"] } }
  | _, _ => .error .nilPointerDereference

/-- Extracting a successful result through `rbind`: the first computation
returned normally and the continuation produced the final value. -/
theorem rbind_eq_ok {α β : Type} (x : GoRes α) (f : α → GoRes β)
    (b : Except GoPanic β) (h : rbind x f = some b)
    (hb : ∀ p, b ≠ .error p) : ∃ a, x = some (.ok a) ∧ f a = some b := by
  cases x with
  | none => simp [rbind] at h
  | some e =>
    cases e with
    | error p =>
      simp only [rbind, Option.some.injEq] at h
      exact absurd h.symm (hb p)
    | ok a => exact ⟨a, rfl, h⟩

/-- Shared helper: decoding the document a rule encodes to recovers the
corresponding concrete approver, at any element index. -/
theorem parseApproverElem_encode (i : Nat) (r : EligibilityRule) :
    parseApproverElem i (encodeEligibilityRule r) = .ok (approverOfRule r) := by
  cases r <;> rfl

/-- Helper: any successful run of the approver loop decodes the documents
positionally — each document decodes (at some index) to the approver at the
same position. -/
theorem parseEligibleApprovers_forall2 (docs : List Json) :
    ∀ (i : Nat) (as : List GateApprover),
      parseEligibleApprovers i docs = .ok as →
      List.Forall₂ (fun d a => ∃ ix, parseApproverElem ix d = .ok a) docs as := by
  induction docs with
  | nil =>
    intro i as h
    simp only [parseEligibleApprovers] at h
    cases h
    exact List.Forall₂.nil
  | cons d rest ih =>
    intro i as h
    simp only [parseEligibleApprovers] at h
    cases he : parseApproverElem i d with
    | error e => rw [he] at h; cases h
    | ok a =>
      rw [he] at h
      cases hr : parseEligibleApprovers (i + 1) rest with
      | error e => rw [hr] at h; cases h
      | ok as' =>
        rw [hr] at h
        cases h
        exact List.Forall₂.cons ⟨i, he⟩ (ih (i + 1) as' hr)

/-- Helper: encoding a rule list and decoding it yields the corresponding
approvers, positionally, from any starting index. -/
theorem parseEligibleApprovers_encode (rules : List EligibilityRule) :
    ∀ i : Nat, parseEligibleApprovers i (rules.map encodeEligibilityRule)
      = .ok (rules.map approverOfRule) := by
  induction rules with
  | nil => intro i; rfl
  | cons r rest ih =>
    intro i
    simp only [List.map, parseEligibleApprovers, parseApproverElem_encode, ih (i + 1)]

/-- Claim C2: for every approver document in a gate response's
`eligibleApprovers` array, whenever the `eligibilityType` tag read from the
document is absent (the unmarshalled zero value `""`) or is not one of
`has_permission_on_target`, `has_user_login`, `has_team_membership`, decoding
the element fails with the unknown-eligibility-type error carrying the seen
tag and the element index — it never returns a default or empty rule. -/
theorem unknown_eligibility_type_rejected (i : Nat) (doc : Json) (s : String)
    (htag : unmarshalStringField doc "eligibilityType" = .ok s)
    (hunk : knownEligibilityType s = false) :
    parseApproverElem i doc = .error (.unknownEligibilityType s i) := by
  have h' := hunk
  simp only [knownEligibilityType, Bool.or_eq_false_iff] at h'
  obtain ⟨⟨h1, h2⟩, h3⟩ := h'
  unfold parseApproverElem
  rw [htag]
  simp [h1, h2, h3]

/-- Witness for C2 at the spec's concrete example: an unsupported
`has_group_membership` tag is rejected with the unknown-type error. -/
theorem unknown_eligibility_type_rejected_witness :
    unmarshalStringField
        (Json.obj [("eligibilityType", Json.str "has_group_membership"),
                   ("teamName", Json.str "security")]) "eligibilityType"
      = .ok "has_group_membership"
    ∧ knownEligibilityType "has_group_membership" = false
    ∧ parseApproverElem 2
        (Json.obj [("eligibilityType", Json.str "has_group_membership"),
                   ("teamName", Json.str "security")])
      = .error (.unknownEligibilityType "has_group_membership" 2) :=
  ⟨rfl, rfl, unknown_eligibility_type_rejected 2
    (Json.obj [("eligibilityType", Json.str "has_group_membership"),
               ("teamName", Json.str "security")])
    "has_group_membership" rfl rfl⟩

/-- Claim C3: for each of the three eligibility-rule variants, encoding the
rule to a document carrying its `eligibilityType` discriminator and decoding
that document returns the identical rule (the decoder's concrete approver
carries the variant's tag, and forgetting the tag gives back the rule). -/
theorem eligibility_rule_roundtrip (i : Nat) (r : EligibilityRule) :
    parseApproverElem i (encodeEligibilityRule r) = .ok (approverOfRule r)
    ∧ ruleOfApprover (approverOfRule r) = r := by
  refine ⟨parseApproverElem_encode i r, ?_⟩
  cases r <;> rfl

/-- Claim C6: encoding an ordered sequence of mixed-variant rules preserves
the order exactly — the encoded array is the elementwise encoding, and
decoding it yields the corresponding approvers in the same order — and any
successfully decoded `eligibleApprovers` array corresponds positionally to
its documents (each document decodes to the approver at the same position). -/
theorem approver_order_preserved :
    (∀ (rules : List EligibilityRule) (i : Nat),
        parseEligibleApprovers i (rules.map encodeEligibilityRule)
          = .ok (rules.map approverOfRule))
    ∧ (∀ (docs : List Json) (i : Nat) (as : List GateApprover),
        parseEligibleApprovers i docs = .ok as →
        List.Forall₂ (fun d a => ∃ ix, parseApproverElem ix d = .ok a) docs as) :=
  ⟨fun rules i => parseEligibleApprovers_encode rules i,
   fun docs i as h => parseEligibleApprovers_forall2 docs i as h⟩

/-- Witness for C6 at a concrete three-element mixed-variant sequence. -/
theorem approver_order_preserved_witness :
    parseEligibleApprovers 0
        ([EligibilityRule.permission "environment:write",
          EligibilityRule.user "alice",
          EligibilityRule.team "platform"].map encodeEligibilityRule)
      = .ok ([EligibilityRule.permission "environment:write",
              EligibilityRule.user "alice",
              EligibilityRule.team "platform"].map approverOfRule)
    ∧ List.Forall₂ (fun d a => ∃ ix, parseApproverElem ix d = .ok a)
        ([EligibilityRule.permission "environment:write",
          EligibilityRule.user "alice",
          EligibilityRule.team "platform"].map encodeEligibilityRule)
        ([EligibilityRule.permission "environment:write",
          EligibilityRule.user "alice",
          EligibilityRule.team "platform"].map approverOfRule) :=
  ⟨approver_order_preserved.1 _ 0,
   approver_order_preserved.2 _ 0 _ (approver_order_preserved.1 _ 0)⟩

/-- Claim C5: for every gate configuration (with the two `*bool` settings
set, as the constructors guarantee), the creation body sets
`rule.ruleType = "approval_required"`, copies the numeric/boolean approval
settings, and sets a target with `entityType = "environment"`,
`qualifiedName = "<project>/<name>"` and `actionTypes = ["update"]`; the
update body sets the same rule fields, and its target type carries only
`actionTypes` — no `entityType`/`qualifiedName` field exists on it. -/
theorem gate_payload_fields (projectName envName : String)
    (cfg : ChangeGateConfig) (ucfg : ChangeGateUpdateConfig)
    (a r a2 r2 : Bool)
    (ha : cfg.allowSelfApproval = some a)
    (hr : cfg.requireReapprovalOnChange = some r)
    (ha2 : ucfg.allowSelfApproval = some a2)
    (hr2 : ucfg.requireReapprovalOnChange = some r2) :
    (∃ pay, buildCreateGatePayload projectName envName cfg = .ok pay
      ∧ pay.rule.ruleType = "approval_required"
      ∧ pay.rule.numApprovalsRequired = cfg.numApprovalsRequired
      ∧ pay.rule.allowSelfApproval = a
      ∧ pay.rule.requireReapprovalOnChange = r
      ∧ pay.rule.eligibleApprovers = cfg.eligibleApprovers.map encodeEligibilityRule
      ∧ pay.target.entityType = "environment"
      ∧ pay.target.qualifiedName = projectName ++ "/" ++ envName
      ∧ pay.target.qualifiedName = getQualifiedEnvName projectName envName
      ∧ pay.target.actionTypes = ["update"])
    ∧ ∃ upay, buildUpdateGatePayload ucfg = .ok upay
      ∧ upay.rule.ruleType = "approval_required"
      ∧ upay.rule.numApprovalsRequired = ucfg.numApprovalsRequired
      ∧ upay.rule.allowSelfApproval = a2
      ∧ upay.rule.requireReapprovalOnChange = r2
      ∧ upay.rule.eligibleApprovers = ucfg.eligibleApprovers.map encodeEligibilityRule
      ∧ upay.target.actionTypes = ["update"] := by
  have hpay : buildCreateGatePayload projectName envName cfg = .ok
      { name := cfg.name, enabled := cfg.enabled,
        rule := { ruleType := "approval_required",
                  numApprovalsRequired := cfg.numApprovalsRequired,
                  allowSelfApproval := a, requireReapprovalOnChange := r,
                  eligibleApprovers := cfg.eligibleApprovers.map encodeEligibilityRule },
        target := { entityType := "environment",
                    qualifiedName := getQualifiedEnvName projectName envName,
                    actionTypes := ["update"] } } := by
    unfold buildCreateGatePayload
    rw [ha, hr]
  have hupay : buildUpdateGatePayload ucfg = .ok
      { name := ucfg.name, enabled := ucfg.enabled,
        rule := { ruleType := "approval_required",
                  numApprovalsRequired := ucfg.numApprovalsRequired,
                  allowSelfApproval := a2, requireReapprovalOnChange := r2,
                  eligibleApprovers := ucfg.eligibleApprovers.map encodeEligibilityRule },
        target := { actionTypes := ["update"] } } := by
    unfold buildUpdateGatePayload
    rw [ha2, hr2]
  exact ⟨⟨_, hpay, rfl, rfl, rfl, rfl, rfl, rfl, rfl, rfl, rfl⟩,
         ⟨_, hupay, rfl, rfl, rfl, rfl, rfl, rfl⟩⟩

/-- Witness for C5 at a concrete configuration. -/
theorem gate_payload_fields_witness :
    ({ name := "gate", enabled := true, numApprovalsRequired := 2,
       eligibleApprovers := [EligibilityRule.user "alice"],
       allowSelfApproval := some false,
       requireReapprovalOnChange := some true } : ChangeGateConfig).allowSelfApproval
        = some false
    ∧ ∃ pay, buildCreateGatePayload "proj" "env"
        { name := "gate", enabled := true, numApprovalsRequired := 2,
          eligibleApprovers := [EligibilityRule.user "alice"],
          allowSelfApproval := some false,
          requireReapprovalOnChange := some true } = .ok pay
        ∧ pay.rule.ruleType = "approval_required"
        ∧ pay.rule.numApprovalsRequired = 2
        ∧ pay.rule.allowSelfApproval = false
        ∧ pay.rule.requireReapprovalOnChange = true
        ∧ pay.rule.eligibleApprovers
            = [EligibilityRule.user "alice"].map encodeEligibilityRule
        ∧ pay.target.entityType = "environment"
        ∧ pay.target.qualifiedName = "proj" ++ "/" ++ "env"
        ∧ pay.target.qualifiedName = getQualifiedEnvName "proj" "env"
        ∧ pay.target.actionTypes = ["update"] :=
  ⟨rfl,
   (gate_payload_fields "proj" "env"
      { name := "gate", enabled := true, numApprovalsRequired := 2,
        eligibleApprovers := [EligibilityRule.user "alice"],
        allowSelfApproval := some false,
        requireReapprovalOnChange := some true }
      { name := "gate", enabled := true, numApprovalsRequired := 2,
        eligibleApprovers := [],
        allowSelfApproval := some false,
        requireReapprovalOnChange := some true }
      false true false true rfl rfl rfl rfl).1⟩

/-- Claim C10: when the underlying request succeeds but the response
environment is `nil` or has no properties, `ReadOpenEnvironment` returns a
`nil` environment, a `nil` value map and a `nil` error. -/
theorem read_open_environment_nil (env? : Option EscEnvObj)
    (h : env? = none ∨ ∃ env, env? = some env ∧ env.properties = none) :
    readOpenEnvironmentPure env? = some (.ok (none, none)) := by
  rcases h with h | ⟨env, henv, hprops⟩
  · rw [h]; rfl
  · rw [henv]
    simp [readOpenEnvironmentPure, hprops]

/-- Witness for C10 at a response with a present environment but absent
properties map. -/
theorem read_open_environment_nil_witness :
    ((some { properties := none } : Option EscEnvObj) = none
      ∨ ∃ env, (some { properties := none } : Option EscEnvObj) = some env
          ∧ env.properties = none)
    ∧ readOpenEnvironmentPure (some { properties := none })
        = some (.ok (none, none)) :=
  ⟨Or.inr ⟨{ properties := none }, rfl, rfl⟩,
   read_open_environment_nil (some { properties := none })
     (Or.inr ⟨{ properties := none }, rfl, rfl⟩)⟩

/-- Claim C8 (failing input): a node document whose `trace` field is present
but `null` drives `getValue`'s unchecked assertion
`data["trace"].(map[string]any)`, so `mapValues` aborts with an interface
conversion panic instead of returning a structured error. -/
theorem malformed_trace_panics :
    mapValues (GoAny.omap [("value", GoAny.str "x"), ("trace", GoAny.nil)])
      = some (.error GoPanic.interfaceConversion) := by
  have h : mvFuel (GoAny.omap [("value", GoAny.str "x"), ("trace", GoAny.nil)]) = 18 := by
    simp [mvFuel, goSize, goSizeMembers]
  rw [mapValues, h]
  rfl

/-- The spec's example root: an environment whose `pulumiConfig` property is
a mapping node with one child node `foo` whose payload is the string
`"bar"`. -/
def exampleEnvProps : List (String × CsValue) :=
  [("pulumiConfig",
    { varValue := .obj [("foo", .obj [("value", .str "bar"), ("trace", .obj [])])]
      secret := none, unknown := none, trace := .obj [] })]

/-- The node the example resolution returns: projected value `"bar"`. -/
def exampleBarNode : CsValue :=
  { varValue := .str "bar", secret := none, unknown := none, trace := .obj [] }

/-- Claim C4: `ResolvePropertyPath` descends the dot-separated path segment
by segment — an empty remainder returns the reached node, a non-mapping
current node fails `notAnObject` before a further (hence non-terminal
predecessor's) segment is consumed, a segment absent from the current mapping
fails `notFound`, and a present child node continues the descent — the first
segment is looked up in the root property map with the same failure mode, and
on the example root `pulumiConfig.foo` resolves to the node with projected
value `"bar"`, `pulumiConfig.missing` fails `notFound`, and
`pulumiConfig.foo.bar` fails `notAnObject` because `foo` is a scalar. -/
theorem resolve_property_path_descends :
    (∀ cur : CsValue, resolveLoop cur [] = .ok cur)
    ∧ (∀ (cur : CsValue) (s : String) (rest : List String),
        (∀ fields, cur.varValue ≠ Json.obj fields) →
        resolveLoop cur (s :: rest) = .error .notAnObject)
    ∧ (∀ (cur : CsValue) (s : String) (rest : List String)
        (fields : List (String × Json)),
        cur.varValue = Json.obj fields → lookupLastJ fields s = none →
        resolveLoop cur (s :: rest) = .error (.notFound s))
    ∧ (∀ (cur : CsValue) (s : String) (rest : List String)
        (fields : List (String × Json)) (child : Json) (v : CsValue),
        cur.varValue = Json.obj fields → lookupLastJ fields s = some child →
        deserializeValue child = .ok (some v) →
        resolveLoop cur (s :: rest) = resolveLoop v rest)
    ∧ (∀ (ps : List (String × CsValue)) (path s0 : String) (rest : List String),
        splitSegs path = s0 :: rest → alookup ps s0 = none →
        resolvePropertyPath (some ps) path = .error (.notFound s0))
    ∧ (∀ (ps : List (String × CsValue)) (path s0 : String) (rest : List String)
        (cur : CsValue),
        splitSegs path = s0 :: rest → alookup ps s0 = some cur →
        resolvePropertyPath (some ps) path = resolveLoop cur rest)
    ∧ resolvePropertyPath (some exampleEnvProps) "pulumiConfig.foo"
        = .ok exampleBarNode
    ∧ resolvePropertyPath (some exampleEnvProps) "pulumiConfig.missing"
        = .error (.notFound "missing")
    ∧ resolvePropertyPath (some exampleEnvProps) "pulumiConfig.foo.bar"
        = .error .notAnObject := by
  refine ⟨fun cur => rfl, ?_, ?_, ?_, ?_, ?_, rfl, rfl, rfl⟩
  · intro cur s rest h
    unfold resolveLoop
    cases hv : cur.varValue with
    | obj fields => exact absurd hv (h fields)
    | null => rfl
    | bool b => rfl
    | num q => rfl
    | str s2 => rfl
    | arr xs => rfl
  · intro cur s rest fields hv hl
    simp only [resolveLoop, hv, hl]
  · intro cur s rest fields child v hv hl hd
    simp only [resolveLoop, hv, hl, hd]
  · intro ps path s0 rest hsp hl
    simp only [resolvePropertyPath, hsp, hl]
  · intro ps path s0 rest cur hsp hl
    simp only [resolvePropertyPath, hsp, hl]

/-- Witness for C4: the general segment-lookup failure conjunct applied at
the example root and path. -/
theorem resolve_property_path_descends_witness :
    splitSegs "other.x" = ["other", "x"]
    ∧ alookup exampleEnvProps "other" = none
    ∧ resolvePropertyPath (some exampleEnvProps) "other.x"
        = .error (.notFound "other") :=
  ⟨rfl, rfl,
   resolve_property_path_descends.2.2.2.2.1 exampleEnvProps "other.x" "other"
     ["x"] rfl rfl⟩

mutual

/-- Helper for C1: on a well-formed payload, projection yields a plain value
of the same shape. -/
theorem mvp_plain_shape (g : GoAny) (h : wfVal g = true) :
    isPlain (mapValuesPrimitive g) = true
    ∧ shapePlain (mapValuesPrimitive g) = shapeVal g :=
  match g, h with
  | .nil, _ => ⟨rfl, rfl⟩
  | .bool _, _ => ⟨rfl, rfl⟩
  | .num _, _ => ⟨rfl, rfl⟩
  | .str _, _ => ⟨rfl, rfl⟩
  | .arr xs, h => by
    have hc := mvp_plain_shape_children xs (by simpa [wfVal] using h)
    simp [mapValuesPrimitive, isPlain, shapePlain, shapeVal, hc.1, hc.2]
  | .escMap m, h => by
    have hc := mvp_plain_shape_members m (by simpa [wfVal] using h)
    simp [mapValuesPrimitive, isPlain, shapePlain, shapeVal, hc.1, hc.2]

/-- Helper for C1, sequence elements. -/
theorem mvp_plain_shape_children (xs : List GoAny) (h : wfChildren xs = true) :
    isPlainList (mvpElems xs) = true
    ∧ shapePlainList (mvpElems xs) = shapeChildren xs :=
  match xs, h with
  | [], _ => ⟨rfl, rfl⟩
  | .escValue (.mk value s u t) :: rest, h => by
    have h' : wfVal value = true ∧ wfChildren rest = true := by
      simpa [wfChildren] using h
    have hv := mvp_plain_shape value h'.1
    have hr := mvp_plain_shape_children rest h'.2
    simp [mvpElems, isPlainList, shapePlainList, shapeChildren, mapValuesPrimitive,
      hv.1, hv.2, hr.1, hr.2]

/-- Helper for C1, mapping members. -/
theorem mvp_plain_shape_members (m : List (String × EscValue))
    (h : wfMembers m = true) :
    isPlainMembers (mvpMembers m) = true
    ∧ shapePlainMembers (mvpMembers m) = shapeMembers m :=
  match m, h with
  | [], _ => ⟨rfl, rfl⟩
  | (k, .mk value s u t) :: rest, h => by
    have h' : wfVal value = true ∧ wfMembers rest = true := by
      simpa [wfMembers] using h
    have hv := mvp_plain_shape value h'.1
    have hr := mvp_plain_shape_members rest h'.2
    simp [mvpMembers, isPlainMembers, shapePlainMembers, shapeMembers,
      hv.1, hv.2, hr.1, hr.2]

end

/-- Claim C1: projecting a well-formed `EscValue` tree with
`mapValuesPrimitive` yields a plain value — no `EscValue` wrapper, and hence
no secret/unknown flag and no trace, survives anywhere in the output — of the
same scalar/sequence/mapping shape as the tree (sequences elementwise in
order, mappings memberwise by key), and a scalar node projects to its scalar
payload unchanged. -/
theorem projection_strips_metadata (v : EscValue) (h : wfNode v = true) :
    isPlain (mapValuesPrimitive (GoAny.escValue v)) = true
    ∧ shapePlain (mapValuesPrimitive (GoAny.escValue v)) = shapeNode v
    ∧ (isScalarVal v.value = true →
        mapValuesPrimitive (GoAny.escValue v) = v.value) := by
  obtain ⟨value, s, u, t⟩ := v
  have hmain := mvp_plain_shape value (by simpa [wfNode, EscValue.value] using h)
  refine ⟨?_, ?_, ?_⟩
  · simpa [mapValuesPrimitive] using hmain.1
  · simpa [mapValuesPrimitive, shapeNode, EscValue.value] using hmain.2
  · intro hs
    cases value <;> simp_all [isScalarVal, mapValuesPrimitive, EscValue.value]

/-- A sample trace record for the witness node. -/
def sampleTrace : EscTrace :=
  .mk { environment := some "proj/env"
        beginPos := { line := 1, column := 2, byte := 3 }
        endPos := { line := 1, column := 8, byte := 9 } } none

/-- The spec's concrete secret node `{value: "shh", secret: true,
trace: {...}}`. -/
def shhNode : EscValue := .mk (.str "shh") (some true) none sampleTrace

/-- Witness for C1 at the spec's concrete case: the secret node projects to
the bare string `"shh"`. -/
theorem projection_strips_metadata_witness :
    wfNode shhNode = true
    ∧ (isPlain (mapValuesPrimitive (GoAny.escValue shhNode)) = true
      ∧ shapePlain (mapValuesPrimitive (GoAny.escValue shhNode)) = shapeNode shhNode
      ∧ (isScalarVal shhNode.value = true →
          mapValuesPrimitive (GoAny.escValue shhNode) = shhNode.value))
    ∧ mapValuesPrimitive (GoAny.escValue shhNode) = GoAny.str "shh" :=
  ⟨by simp [wfNode, shhNode, EscValue.value, wfVal],
   projection_strips_metadata shhNode
     (by simp [wfNode, shhNode, EscValue.value, wfVal]),
   by simp [shhNode, mapValuesPrimitive]⟩

mutual

/-- A value containing no sequence (`[]any`) anywhere in projection-traversed
position: such values have no slice for `mapValuesPrimitive` to write to. -/
def seqFree : GoAny → Bool
  | .arr _ => false
  | .escValue (.mk value _ _ _) => seqFree value
  | .escMap m => seqFreeMembers m
  | _ => true

/-- All member payloads of a mapping are sequence-free. -/
def seqFreeMembers : List (String × EscValue) → Bool
  | [] => true
  | (_, .mk value _ _ _) :: rest => seqFree value && seqFreeMembers rest

end

mutual

/-- Counts the `EscValue` wrappers in a value; an observer that separates a
tree from its projection. -/
def countNodes : GoAny → Nat
  | .escValue (.mk value _ _ _) => 1 + countNodes value
  | .escMap m => countNodesEsc m
  | .arr xs => countNodesList xs
  | .omap m => countNodesAny m
  | _ => 0

/-- Node count of a `map[string]EscValue`. -/
def countNodesEsc : List (String × EscValue) → Nat
  | [] => 0
  | (_, .mk value _ _ _) :: rest => 1 + countNodes value + countNodesEsc rest

/-- Node count of a list. -/
def countNodesList : List GoAny → Nat
  | [] => 0
  | x :: rest => countNodes x + countNodesList rest

/-- Node count of a `map[string]any`. -/
def countNodesAny : List (String × GoAny) → Nat
  | [] => 0
  | (_, v) :: rest => countNodes v + countNodesAny rest

end

mutual

/-- Helper for C9: a sequence-free value is left untouched by
`mapValuesPrimitive` — there is no slice to write into. -/
theorem after_id_of_seqFree (g : GoAny) (h : seqFree g = true) :
    mapValuesPrimitiveAfter g = g :=
  match g, h with
  | .nil, _ => by simp [mapValuesPrimitiveAfter]
  | .bool _, _ => by simp [mapValuesPrimitiveAfter]
  | .num _, _ => by simp [mapValuesPrimitiveAfter]
  | .str _, _ => by simp [mapValuesPrimitiveAfter]
  | .omap _, _ => by simp [mapValuesPrimitiveAfter]
  | .escValue (.mk value s u t), h => by
    have hv := after_id_of_seqFree value (by simpa [seqFree] using h)
    simp [mapValuesPrimitiveAfter, hv]
  | .escMap m, h => by
    have hm := afterMembers_id_of_seqFree m (by simpa [seqFree] using h)
    simp [mapValuesPrimitiveAfter, hm]

/-- Helper for C9, mapping members. -/
theorem afterMembers_id_of_seqFree (m : List (String × EscValue))
    (h : seqFreeMembers m = true) : mvpAfterMembers m = m :=
  match m, h with
  | [], _ => by simp [mvpAfterMembers]
  | (k, .mk value s u t) :: rest, h => by
    have h' : seqFree value = true ∧ seqFreeMembers rest = true := by
      simpa [seqFreeMembers] using h
    have hv := after_id_of_seqFree value h'.1
    have hr := afterMembers_id_of_seqFree rest h'.2
    simp [mvpAfterMembers, hv, hr]

end

/-- A tree whose root node holds a one-element sequence of a secret string
node: projecting it overwrites the sequence slot in place. -/
def mutationExampleTree : GoAny :=
  .escValue (.mk (.arr [.escValue (.mk (.str "x") (some true) none emptyTrace)])
    none none emptyTrace)

/-- Counterexample for C9: after `mapValuesPrimitive` runs on
`mutationExampleTree`, the tree is not what it was before the call — the Go
code wrote the projection `"x"` over the sequence's `*EscValue` element
(`val[i] = mapValuesPrimitive(v)`), so the inner node annotation is gone from
the input tree itself. -/
theorem projection_mutates_input :
    mapValuesPrimitiveAfter mutationExampleTree ≠ mutationExampleTree := by
  intro h
  have hc := congrArg countNodes h
  simp [mutationExampleTree, mapValuesPrimitiveAfter, mvpElems,
    mapValuesPrimitive, countNodes, countNodesList] at hc

/-- Claim C9 (amended): projection allocates fresh mapping output and leaves
scalar and mapping structure of the input unchanged — for every tree with no
sequence node the input is exactly what it was before the call — but a
sequence node's slice is overwritten in place, its slots holding afterwards
the projections of the original children rather than the original children. -/
theorem projection_frame_effect :
    (∀ g : GoAny, seqFree g = true → mapValuesPrimitiveAfter g = g)
    ∧ ∀ xs : List GoAny,
        mapValuesPrimitiveAfter (GoAny.arr xs) = GoAny.arr (mvpElems xs) :=
  ⟨after_id_of_seqFree, fun xs => by simp [mapValuesPrimitiveAfter]⟩

/-- Witness for C9's amended claim at a concrete sequence-free tree and a
concrete sequence. -/
theorem projection_frame_effect_witness :
    seqFree (GoAny.escValue (.mk (.str "v") none none emptyTrace)) = true
    ∧ mapValuesPrimitiveAfter (GoAny.escValue (.mk (.str "v") none none emptyTrace))
        = GoAny.escValue (.mk (.str "v") none none emptyTrace)
    ∧ mapValuesPrimitiveAfter (GoAny.arr [GoAny.str "w"])
        = GoAny.arr (mvpElems [GoAny.str "w"]) :=
  ⟨by simp [seqFree],
   projection_frame_effect.1 _ (by simp [seqFree]),
   projection_frame_effect.2 [GoAny.str "w"]⟩

/-- Helper: looking a key up in a projected mapping gives the projection of
the payload stored under that key. -/
theorem alookup_mvpMembers (m : List (String × EscValue)) (k : String) :
    alookup (mvpMembers m) k
      = Option.map (fun ev => mapValuesPrimitive ev.value) (alookup m k) := by
  induction m with
  | nil => simp [mvpMembers, alookup]
  | cons hd tl ih =>
    obtain ⟨k', ev⟩ := hd
    obtain ⟨value, s, u, t⟩ := ev
    by_cases hk : (k' == k)
    · simp [mvpMembers, alookup, hk, EscValue.value]
    · simp [mvpMembers, alookup, hk, ih]

/-- Helper: a normal return of `mapValues` on the `nil` interface value is
`nil` (the run falls through every branch and returns its input). -/
theorem mapValuesF_nil_ok (n : Nat) (a : GoAny)
    (h : mapValuesF n GoAny.nil = some (.ok a)) : a = GoAny.nil := by
  match n with
  | 0 => simp [mapValuesF] at h
  | 1 => simp [mapValuesF, getValueF, getMapSafe, rbind] at h
  | k + 2 =>
    simp [mapValuesF, getValueF, getMapSafe, rbind] at h
    exact h.symm

/-- Helper: a successful run of the member-conversion loop converts the first
binding of any present key, and stores the converted node under that key when
the conversion yields a node. -/
theorem mapMembersF_lookup (m : List (String × GoAny)) :
    ∀ (n : Nat) (out : List (String × EscValue)) (k : String) (d : GoAny),
      mapMembersF n m = some (.ok out) → alookup m k = some d →
      ∃ n2 rd, mapValuesF n2 d = some (.ok rd)
        ∧ ∀ ev : EscValue, rd = .escValue ev → alookup out k = some ev := by
  induction m with
  | nil => intro n out k d _ hk; simp [alookup] at hk
  | cons hd rest ih =>
    obtain ⟨k', v⟩ := hd
    intro n out k d hm hk
    match n with
    | 0 => simp [mapMembersF] at hm
    | n + 1 =>
      simp only [mapMembersF] at hm
      obtain ⟨value, hval, h2⟩ := rbind_eq_ok _ _ _ hm (by simp)
      obtain ⟨out', hrest, h3⟩ := rbind_eq_ok _ _ _ h2 (by simp)
      have hout : out = consMember k' value out' := by
        simpa using h3.symm
      by_cases hkk : (k' == k)
      · have hd : v = d := by simpa [alookup, hkk] using hk
        subst hd
        refine ⟨n, value, hval, ?_⟩
        intro ev hev
        subst hev
        simp [hout, consMember, alookup, hkk]
      · have hk' : alookup rest k = some d := by simpa [alookup, hkk] using hk
        obtain ⟨n2, rd, hrd, hev⟩ := ih n out' k d hrest hk'
        refine ⟨n2, rd, hrd, ?_⟩
        intro ev hevq
        have := hev ev hevq
        rw [hout]
        cases value <;> simp [consMember, alookup, hkk, this]

/-- Helper: converting a node document whose `value` member is JSON `null`
(and whose `trace` member is a map) yields — when it returns at all — an
`EscValue` node whose payload is `nil`: the null payload is preserved, not
dropped. -/
theorem mapValuesF_nullNode (n : Nat) (dm : List (String × GoAny)) (rd : GoAny)
    (hv : alookup dm "value" = some GoAny.nil)
    (tm : List (String × GoAny))
    (ht : alookup dm "trace" = some (GoAny.omap tm))
    (h : mapValuesF n (GoAny.omap dm) = some (.ok rd)) :
    ∃ ev : EscValue, rd = GoAny.escValue ev ∧ ev.value = GoAny.nil := by
  match n with
  | 0 => simp [mapValuesF] at h
  | n + 1 =>
    simp only [mapValuesF, getMapSafe] at h
    obtain ⟨val?, hgv, hcont⟩ := rbind_eq_ok _ _ _ h (by simp)
    match n, hgv with
    | 0, hgv => simp [getValueF] at hgv
    | n' + 1, hgv =>
      simp only [getValueF, hv, ht, Option.isSome_some, Bool.and_self,
        if_true, Option.getD_some, assertMap] at hgv
      obtain ⟨inner, hinner, hgv2⟩ := rbind_eq_ok _ _ _ hgv (by simp)
      have hinner_nil : inner = GoAny.nil := mapValuesF_nil_ok _ _ hinner
      subst hinner_nil
      obtain ⟨tr, htr, hgv3⟩ := rbind_eq_ok _ _ _ hgv2 (by simp)
      have hval? : val? = some (EscValue.mk GoAny.nil (getBoolPtr dm "secret")
          (getBoolPtr dm "unknown") tr) := by
        simpa using hgv3.symm
      subst hval?
      simp only [EscValue.value, EscValue.secret, EscValue.unknown,
        EscValue.trace] at hcont
      obtain ⟨inner2, hinner2, hcont2⟩ := rbind_eq_ok _ _ _ hcont (by simp)
      have hinner2_nil : inner2 = GoAny.nil := mapValuesF_nil_ok _ _ hinner2
      subst hinner2_nil
      have hrd : rd = GoAny.escValue (EscValue.mk GoAny.nil
          (getBoolPtr dm "secret") (getBoolPtr dm "unknown") tr) := by
        simpa using hcont2.symm
      exact ⟨_, hrd, rfl⟩

/-- Claim C7: a mapping of the wire tree (one that is not itself a node
document) that binds a key to a node document with a `null` value converts —
whenever `mapValues` returns — to a `map[string]EscValue` that still contains
that key, bound to a node whose payload is `nil`; projecting the converted
mapping with `mapValuesPrimitive` keeps the key, with a `null` value, rather
than dropping it. -/
theorem null_valued_member_preserved (m : List (String × GoAny)) (k : String)
    (dm : List (String × GoAny)) (tm : List (String × GoAny)) (r : GoAny)
    (hplain : (alookup m "value").isSome = false
      ∨ (alookup m "trace").isSome = false)
    (hmem : alookup m k = some (GoAny.omap dm))
    (hval : alookup dm "value" = some GoAny.nil)
    (htr : alookup dm "trace" = some (GoAny.omap tm))
    (hok : mapValues (GoAny.omap m) = some (.ok r)) :
    ∃ (out : List (String × EscValue)) (ev : EscValue),
      r = GoAny.escMap out
      ∧ alookup out k = some ev ∧ ev.value = GoAny.nil
      ∧ mapValuesPrimitive r = GoAny.omap (mvpMembers out)
      ∧ alookup (mvpMembers out) k = some GoAny.nil := by
  obtain ⟨N, hN⟩ : ∃ N, mvFuel (GoAny.omap m) = N + 1 :=
    ⟨3 * goSize (GoAny.omap m) + 2, by simp [mvFuel]⟩
  rw [mapValues, hN] at hok
  simp only [mapValuesF, getMapSafe] at hok
  obtain ⟨val?, hgv, hcont⟩ := rbind_eq_ok _ _ _ hok (by simp)
  have hval? : val? = none := by
    match N, hgv with
    | 0, hgv => simp [getValueF] at hgv
    | n + 1, hgv =>
      rcases hplain with hp | hp <;>
        simp [getValueF, hp] at hgv <;> exact hgv.symm
  subst hval?
  simp only at hcont
  obtain ⟨out, hmm, hout⟩ := rbind_eq_ok _ _ _ hcont (by simp)
  have hr : r = GoAny.escMap out := by simpa using hout.symm
  obtain ⟨n2, rd, hrd, hev⟩ := mapMembersF_lookup m N out k _ hmm hmem
  obtain ⟨ev, hrdev, hevnil⟩ := mapValuesF_nullNode n2 dm rd hval tm htr hrd
  have hlook : alookup out k = some ev := hev ev hrdev
  refine ⟨out, ev, hr, hlook, hevnil, ?_, ?_⟩
  · rw [hr]; simp [mapValuesPrimitive]
  · rw [alookup_mvpMembers, hlook]
    simp [hevnil, mapValuesPrimitive]

/-- Witness for C7 at a concrete one-member mapping whose `ks` child node has
a `null` value. -/
theorem null_valued_member_preserved_witness :
    mapValues (GoAny.omap [("ks",
        GoAny.omap [("value", GoAny.nil), ("trace", GoAny.omap [])])])
      = some (.ok (GoAny.escMap [("ks", EscValue.mk GoAny.nil none none emptyTrace)]))
    ∧ ∃ (out : List (String × EscValue)) (ev : EscValue),
        GoAny.escMap [("ks", EscValue.mk GoAny.nil none none emptyTrace)]
          = GoAny.escMap out
        ∧ alookup out "ks" = some ev ∧ ev.value = GoAny.nil
        ∧ mapValuesPrimitive
            (GoAny.escMap [("ks", EscValue.mk GoAny.nil none none emptyTrace)])
          = GoAny.omap (mvpMembers out)
        ∧ alookup (mvpMembers out) "ks" = some GoAny.nil := by
  have hok : mapValues (GoAny.omap [("ks",
        GoAny.omap [("value", GoAny.nil), ("trace", GoAny.omap [])])])
      = some (.ok (GoAny.escMap
          [("ks", EscValue.mk GoAny.nil none none emptyTrace)])) := by
    have h : mvFuel (GoAny.omap [("ks",
        GoAny.omap [("value", GoAny.nil), ("trace", GoAny.omap [])])]) = 24 := by
      simp [mvFuel, goSize, goSizeMembers]
    rw [mapValues, h]
    rfl
  exact ⟨hok,
    null_valued_member_preserved
      [("ks", GoAny.omap [("value", GoAny.nil), ("trace", GoAny.omap [])])] "ks"
      [("value", GoAny.nil), ("trace", GoAny.omap [])] [] _
      (Or.inl rfl) rfl rfl rfl hok⟩
